import Mathlib

/-!
Shallow embedding of the Shove Trick Trainer backend (src/main.py, src/schemas.py).

Conventions of the embedding:
* Python integers are `Int`; Python floor division `//` is `Int.fdiv`.
* Calendar dates (UTC, date portion only) are represented by their ordinal
  day numbers as `Int`; "yesterday" of day `d` is `d - 1`, exactly as
  `day.fromordinal(day.toordinal() - 1)` in the source.
* The document store is abstracted away: `log_practice` receives the list of
  calendar dates of the retrieved history documents (the set comprehension in
  the source turns them into a set of unique dates, here `List.toFinset`),
  and the leaderboard handler receives the list of stored session documents.
* The wall clock is abstracted into an explicit `today : Int` parameter.
-/

namespace Shove

/-- Embedding of `schemas.PracticeSession` (src/schemas.py lines 26-33):
user_id, duration_min, technique_score, attempts, optional notes.
The optional `performed_at` timestamp only matters through the calendar
dates handed to `log_practice`, so it is kept as an optional day number. -/
structure PracticeSession where
  user_id : String
  duration_min : Int
  technique_score : Int
  attempts : Int
  notes : Option String := none
  performed_at : Option Int := none
deriving DecidableEq, Repr

/-- Field validation of `PracticeSession` as declared by the pydantic
`Field` constraints: duration_min in [1,240], technique_score in [0,100],
attempts in [1,500], notes at most 500 characters. -/
def ValidSession (s : PracticeSession) : Prop :=
  1 ≤ s.duration_min ∧ s.duration_min ≤ 240 ∧
  0 ≤ s.technique_score ∧ s.technique_score ≤ 100 ∧
  1 ≤ s.attempts ∧ s.attempts ≤ 500 ∧
  (∀ n ∈ s.notes, n.length ≤ 500)

instance (s : PracticeSession) : Decidable (ValidSession s) := by
  unfold ValidSession; infer_instance

/-- Embedding of `schemas.Achievement` (src/schemas.py lines 42-49),
without the optional `unlocked_at` (the handler never sets it). -/
structure Achievement where
  user_id : String
  key : String
  title : String
  description : String
  icon : String
deriving DecidableEq, Repr

/-- Embedding of `main.SessionFeedback` (src/main.py lines 98-102). -/
structure SessionFeedback where
  xp_earned : Int
  streak : Nat
  badges_unlocked : List String
  milestone : Option String
deriving DecidableEq, Repr

/-- XP formula of src/main.py line 110:
`xp = min(50, duration_min // 5 + attempts // 10 + technique_score // 10)`. -/
def xpOf (s : PracticeSession) : Int :=
  min 50 (s.duration_min.fdiv 5 + s.attempts.fdiv 10 + s.technique_score.fdiv 10)

/-- The `while day in date_set: count += 1; day -= 1` loop of
src/main.py lines 123-125, with explicit fuel. The loop terminates because
the counted days are pairwise distinct members of the finite `dateSet`,
so the count can never exceed `dateSet.card`; any fuel strictly larger
than `dateSet.card` therefore yields the loop's exact result
(`streakOf_eq_iff` below proves this characterisation). -/
def walkFuel (dateSet : Finset Int) (day : Int) : Nat → Nat
  | 0 => 0
  | fuel + 1 => if day ∈ dateSet then walkFuel dateSet (day - 1) fuel + 1 else 0

/-- Streak computation of src/main.py lines 113-126: build the set of unique
calendar dates of the retrieved documents, default `streak = 1 if dates else 0`,
and when the set is non-empty walk backward from today counting consecutive
member days. -/
def streakOf (docDates : List Int) (today : Int) : Nat :=
  let dateSet := docDates.toFinset
  let streak := if dateSet = ∅ then 0 else 1
  if dateSet ≠ ∅ then walkFuel dateSet today (dateSet.card + 1) else streak

/-- Badge rules of src/main.py lines 128-133: append "Clean Pop" when
`technique_score >= 60`, then append "Grinder" when `attempts >= 50`. -/
def badgesOf (s : PracticeSession) : List String :=
  (if 60 ≤ s.technique_score then ["Clean Pop"] else []) ++
    (if 50 ≤ s.attempts then ["Grinder"] else [])

/-- Milestone rule of src/main.py lines 134-135:
`if streak and streak % 7 == 0: milestone = f"STREAK-Day Streak!"`. -/
def milestoneOf (streak : Nat) : Option String :=
  if streak ≠ 0 ∧ streak % 7 = 0 then some (toString streak ++ "-Day Streak!") else none

/-- Slug of a badge name as computed by `b.lower().replace(" ", "-")` in
src/main.py line 141, modelled character-wise (Python's `str.lower` lowers
each character and `replace(" ", "-")` substitutes each space). -/
def slugOf (b : String) : String :=
  ⟨b.data.map fun c => if c.toLower = ' ' then '-' else c.toLower⟩

/-- Achievement documents persisted by the loop of src/main.py lines 138-145:
one per awarded badge, key = lower-cased badge name with spaces replaced by
hyphens, description mentioning today's date, icon a star. -/
def achievementsOf (s : PracticeSession) (today : Int) : List Achievement :=
  (badgesOf s).map fun b =>
    { user_id := s.user_id
      key := slugOf b
      title := b
      description := "Unlocked by session on " ++ toString today
      icon := "⭐" }

/-- Embedding of the `log_practice` handler (src/main.py lines 104-147).
`docDates` are the calendar dates of the documents returned by
`get_documents("practicesession", ...)` after the new session was stored;
`today` is `datetime.now(timezone.utc).date()`. The result pairs the
`SessionFeedback` response with the list of achievement documents the
handler persists. -/
def log_practice (session : PracticeSession) (docDates : List Int) (today : Int) :
    SessionFeedback × List Achievement :=
  let xp := xpOf session
  let streak := streakOf docDates today
  let badges := badgesOf session
  let milestone := milestoneOf streak
  (⟨xp, streak, badges, milestone⟩, achievementsOf session today)

/-- Embedding of a stored practice-session document as the leaderboard
handler reads it back (src/main.py lines 167-171): only the fields it uses. -/
structure SessionDoc where
  user_id : String
  technique_score : Int
  attempts : Int
deriving DecidableEq, Repr

/-- Per-session contribution of src/main.py line 171:
`int(technique_score) + int(attempts // 10)`. -/
def sessionPoints (s : SessionDoc) : Int :=
  s.technique_score + s.attempts.fdiv 10

/-- One step of the dict accumulation `score[uid] = score.get(uid, 0) + pts`
(src/main.py line 171). A Python dict keeps first-insertion order, so it is
an association list in which an existing key is updated in place and a new
key is appended at the end. -/
def updateScore (acc : List (String × Int)) (uid : String) (p : Int) :
    List (String × Int) :=
  if acc.any (fun e => e.1 == uid) then
    acc.map fun e => if e.1 == uid then (e.1, e.2 + p) else e
  else acc ++ [(uid, p)]

/-- The `score` dict of src/main.py lines 168-171, folded over the stored
sessions in order. -/
def scoreFold (sessions : List SessionDoc) : List (String × Int) :=
  sessions.foldl (fun acc s => updateScore acc s.user_id (sessionPoints s)) []

/-- One insertion step of a stable descending sort: the new element is
placed before the first element with strictly fewer points, hence after
every earlier element with at least as many points. -/
def insertDesc (a : String × Int) : List (String × Int) → List (String × Int)
  | [] => [a]
  | b :: l => if b.2 < a.2 then a :: b :: l else b :: insertDesc a l

/-- Models `sorted(score.items(), key=lambda x: x[1], reverse=True)` of
src/main.py line 172: CPython's sorted with reverse=True is the stable sort
placing larger point totals first, which this left fold of stable
insertions computes. -/
def sortedDesc (l : List (String × Int)) : List (String × Int) :=
  l.foldl (fun acc a => insertDesc a acc) []

/-- Embedding of one leaderboard response entry
`{user_id, points, rank}` (src/main.py line 173). -/
structure LBEntry where
  user_id : String
  points : Int
  rank : Nat
deriving DecidableEq, Repr

/-- The `enumerate`-based rank assignment of src/main.py line 173: the
element at 0-based position `i` of the sorted, truncated list becomes an
entry with rank `i + 1`. -/
def addRanks : Nat → List (String × Int) → List LBEntry
  | _, [] => []
  | i, e :: rest => ⟨e.1, e.2, i + 1⟩ :: addRanks (i + 1) rest

/-- Embedding of the `leaderboard` handler (src/main.py lines 165-173). -/
def leaderboard (sessions : List SessionDoc) (limit : Nat) : List LBEntry :=
  let score := scoreFold sessions
  let ranks := (sortedDesc score).take limit
  addRanks 0 ranks

/-- First-match lookup in the score association list with default 0,
mirroring `score.get(uid, 0)`. -/
def valOf (acc : List (String × Int)) (uid : String) : Int :=
  ((acc.find? fun e => e.1 == uid).map Prod.snd).getD 0

/-- Total points of one user across the stored sessions: the sum of
`technique_score + attempts // 10` over exactly that user's sessions. -/
def userPoints (sessions : List SessionDoc) (uid : String) : Int :=
  ((sessions.filter fun s => s.user_id == uid).map sessionPoints).sum

/-! ### Lemmas about the streak walk -/

theorem walkFuel_le (S : Finset Int) (day : Int) (f : Nat) : walkFuel S day f ≤ f := by
  induction f generalizing day with
  | zero => simp [walkFuel]
  | succ n ih =>
    simp only [walkFuel]
    split
    · exact Nat.succ_le_succ (ih _)
    · exact Nat.zero_le _

theorem walkFuel_mem (S : Finset Int) (day : Int) (f : Nat) :
    ∀ k : Nat, k < walkFuel S day f → day - (k : Int) ∈ S := by
  induction f generalizing day with
  | zero => intro k hk; simp [walkFuel] at hk
  | succ n ih =>
    intro k hk
    simp only [walkFuel] at hk
    split at hk
    case isTrue hmem =>
      cases k with
      | zero => simpa using hmem
      | succ j =>
        have hj := ih (day - 1) j (by omega)
        have heq : day - ((j + 1 : Nat) : Int) = day - 1 - (j : Int) := by
          push_cast; ring
        rwa [heq]
    case isFalse => omega

theorem walkFuel_stop (S : Finset Int) (day : Int) (f : Nat)
    (h : walkFuel S day f < f) : day - (walkFuel S day f : Int) ∉ S := by
  induction f generalizing day with
  | zero => omega
  | succ n ih =>
    by_cases hmem : day ∈ S
    · have hrw : walkFuel S day (n + 1) = walkFuel S (day - 1) n + 1 := by
        simp [walkFuel, hmem]
      rw [hrw] at h ⊢
      have := ih (day - 1) (by omega)
      have heq : day - ((walkFuel S (day - 1) n + 1 : Nat) : Int) =
          day - 1 - (walkFuel S (day - 1) n : Int) := by push_cast; ring
      rwa [heq]
    · have hrw : walkFuel S day (n + 1) = 0 := by simp [walkFuel, hmem]
      rw [hrw]
      simpa using hmem

theorem consecutive_le_card (S : Finset Int) (day : Int) (n : Nat)
    (h : ∀ k : Nat, k < n → day - (k : Int) ∈ S) : n ≤ S.card := by
  have := Finset.card_le_card_of_injOn (fun k : Nat => day - (k : Int))
    (fun a ha => h a (Finset.mem_range.mp ha))
    (fun a _ b _ hab => by
      simp only at hab
      have : (a : Int) = b := by omega
      exact_mod_cast this)
  simpa using this

theorem streakOf_of_toFinset_ne (docDates : List Int) (today : Int)
    (h : docDates.toFinset ≠ ∅) :
    streakOf docDates today =
      walkFuel docDates.toFinset today (docDates.toFinset.card + 1) := by
  unfold streakOf
  simp [h]

theorem streakOf_spec (docDates : List Int) (today : Int) (h : docDates ≠ []) :
    (∀ k : Nat, k < streakOf docDates today → today - (k : Int) ∈ docDates) ∧
      today - (streakOf docDates today : Int) ∉ docDates := by
  have hne : docDates.toFinset ≠ ∅ := by
    cases docDates with
    | nil => exact absurd rfl h
    | cons a l => simp
  rw [streakOf_of_toFinset_ne docDates today hne]
  set S := docDates.toFinset with hS
  set c := walkFuel S today (S.card + 1) with hc
  have hmem : ∀ k : Nat, k < c → today - (k : Int) ∈ S := walkFuel_mem S today _
  have hcard : c ≤ S.card := consecutive_le_card S today c hmem
  have hstop : today - (c : Int) ∉ S := walkFuel_stop S today _ (by omega)
  refine ⟨fun k hk => ?_, fun hmem2 => hstop ?_⟩
  · exact List.mem_toFinset.mp (hmem k hk)
  · exact List.mem_toFinset.mpr hmem2

theorem streakOf_eq_iff (docDates : List Int) (today : Int) (h : docDates ≠ [])
    (n : Nat) :
    streakOf docDates today = n ↔
      ((∀ k : Nat, k < n → today - (k : Int) ∈ docDates) ∧
        today - (n : Int) ∉ docDates) := by
  constructor
  · rintro rfl
    exact streakOf_spec docDates today h
  · rintro ⟨h1, h2⟩
    obtain ⟨g1, g2⟩ := streakOf_spec docDates today h
    by_contra hne
    rcases Nat.lt_or_ge (streakOf docDates today) n with hlt | hge
    · exact g2 (h1 _ hlt)
    · exact h2 (g1 n (lt_of_le_of_ne hge fun e => hne e.symm))

/-! ### Division helpers: Python floor division by a positive constant -/

theorem fdiv_five_eq (a : Int) : a.fdiv 5 = a / 5 :=
  Int.fdiv_eq_ediv a (by norm_num)

theorem fdiv_ten_eq (a : Int) : a.fdiv 10 = a / 10 :=
  Int.fdiv_eq_ediv a (by norm_num)

theorem xpOf_mono {s₁ s₂ : PracticeSession} (hd : s₁.duration_min ≤ s₂.duration_min)
    (ha : s₁.attempts ≤ s₂.attempts)
    (ht : s₁.technique_score ≤ s₂.technique_score) :
    xpOf s₁ ≤ xpOf s₂ := by
  unfold xpOf
  rw [fdiv_five_eq, fdiv_ten_eq, fdiv_ten_eq, fdiv_five_eq, fdiv_ten_eq, fdiv_ten_eq]
  have h1 : s₁.duration_min / 5 ≤ s₂.duration_min / 5 :=
    Int.ediv_le_ediv (by norm_num) hd
  have h2 : s₁.attempts / 10 ≤ s₂.attempts / 10 :=
    Int.ediv_le_ediv (by norm_num) ha
  have h3 : s₁.technique_score / 10 ≤ s₂.technique_score / 10 :=
    Int.ediv_le_ediv (by norm_num) ht
  exact min_le_min le_rfl (by omega)

/-! ### Claim theorems -/

/-- C1: for every validated practice session, the xp_earned returned by the
practice-log operation equals
`min 50 (duration_min // 5 + attempts // 10 + technique_score // 10)`
with floor division on each term; in particular duration_min = 25,
technique_score = 70, attempts = 60 yields xp_earned = 18. -/
theorem xp_formula :
    (∀ (s : PracticeSession) (docDates : List Int) (today : Int), ValidSession s →
        (log_practice s docDates today).1.xp_earned =
          min 50 (s.duration_min.fdiv 5 + s.attempts.fdiv 10 +
            s.technique_score.fdiv 10)) ∧
    (∀ (docDates : List Int) (today : Int),
        (log_practice ⟨"a", 25, 70, 60, none, none⟩ docDates today).1.xp_earned = 18) :=
  ⟨fun _ _ _ _ => rfl, fun _ _ => rfl⟩

/-- Witness for C1: the concrete session of the spec example is valid and its
xp matches the formula. -/
theorem xp_formula_witness :
    ValidSession ⟨"a", 25, 70, 60, none, none⟩ ∧
      (log_practice ⟨"a", 25, 70, 60, none, none⟩ [0] 0).1.xp_earned =
        min 50 ((25 : Int).fdiv 5 + (60 : Int).fdiv 10 + (70 : Int).fdiv 10) :=
  ⟨by decide, xp_formula.1 ⟨"a", 25, 70, 60, none, none⟩ [0] 0 (by decide)⟩

/-- C2: for every non-empty set of session dates, the streak returned by the
practice-log operation is the count of consecutive days ending at today that
are all present in the set (the backward walk stops at the first missing
day); consequently today/yesterday/day-before gives 3, today plus two days
ago without yesterday gives 1, and a non-empty history without today
gives 0. -/
theorem streak_backward_walk :
    (∀ (s : PracticeSession) (docDates : List Int) (today : Int),
        (log_practice s docDates today).1.streak = streakOf docDates today) ∧
    (∀ (docDates : List Int) (today : Int), docDates ≠ [] → ∀ n : Nat,
        streakOf docDates today = n ↔
          ((∀ k : Nat, k < n → today - (k : Int) ∈ docDates) ∧
            today - (n : Int) ∉ docDates)) ∧
    (∀ today : Int, streakOf [today, today - 1, today - 2] today = 3) ∧
    (∀ today : Int, streakOf [today, today - 2] today = 1) ∧
    (∀ (docDates : List Int) (today : Int), docDates ≠ [] → today ∉ docDates →
        streakOf docDates today = 0) := by
  refine ⟨fun _ _ _ => rfl, streakOf_eq_iff, ?_, ?_, ?_⟩
  · intro today
    refine (streakOf_eq_iff _ today (by simp) 3).mpr ⟨?_, ?_⟩
    · intro k hk
      interval_cases k <;> simp
    · simp
  · intro today
    refine (streakOf_eq_iff _ today (by simp) 1).mpr ⟨?_, ?_⟩
    · intro k hk
      interval_cases k
      simp
    · simp
  · intro docDates today h ht
    refine (streakOf_eq_iff docDates today h 0).mpr ⟨fun k hk => absurd hk (by omega), ?_⟩
    simpa using ht

/-- Witness for C2: for the history containing today, yesterday and the day
before (as day numbers 0, -1, -2 with today = 0), the characterisation
yields streak 3, discharging the non-emptiness hypothesis. -/
theorem streak_backward_walk_witness :
    streakOf [(0 : Int), -1, -2] 0 = 3 :=
  (streak_backward_walk.2.1 [(0 : Int), -1, -2] 0 (by decide) 3).mpr (by decide)

/-- C3 counterexample: at the concrete valid session and an empty retrieved
date set, the practice-log operation returns streak 0, not 1 as claimed. -/
theorem streak_empty_history_claim_false :
    (log_practice ⟨"a", 25, 70, 60, none, none⟩ [] 0).1.streak = 0 ∧
      (log_practice ⟨"a", 25, 70, 60, none, none⟩ [] 0).1.streak ≠ 1 :=
  ⟨rfl, by decide⟩

/-- C3 amended: if the session history yields no dates at all, the streak
returned by the practice-log operation is 0 (the `1 if dates else 0`
default evaluates to 0 for an empty date set, and the walk is skipped). -/
theorem streak_empty_history_zero :
    ∀ (s : PracticeSession) (today : Int), (log_practice s [] today).1.streak = 0 :=
  fun _ _ => rfl

/-- C4: for every validated practice session, the badge list returned by the
practice-log operation contains "Clean Pop" iff technique_score ≥ 60 and
contains "Grinder" iff attempts ≥ 50, the two conditions being independent. -/
theorem badges_iff :
    ∀ (s : PracticeSession) (docDates : List Int) (today : Int), ValidSession s →
      (("Clean Pop" ∈ (log_practice s docDates today).1.badges_unlocked ↔
          60 ≤ s.technique_score) ∧
        ("Grinder" ∈ (log_practice s docDates today).1.badges_unlocked ↔
          50 ≤ s.attempts)) := by
  intro s docDates today _
  show ("Clean Pop" ∈ badgesOf s ↔ _) ∧ ("Grinder" ∈ badgesOf s ↔ _)
  unfold badgesOf
  by_cases h1 : 60 ≤ s.technique_score <;> by_cases h2 : 50 ≤ s.attempts <;>
    simp [h1, h2]

/-- Witness for C4: the spec example session is valid and unlocks
"Clean Pop" with technique_score 70. -/
theorem badges_iff_witness :
    "Clean Pop" ∈ (log_practice ⟨"a", 25, 70, 60, none, none⟩ [0] 0).1.badges_unlocked ↔
      60 ≤ (70 : Int) :=
  (badges_iff ⟨"a", 25, 70, 60, none, none⟩ [0] 0 (by decide)).1

/-- C5: the milestone of the practice-log response is non-null iff the
computed streak is a positive multiple of 7, and when non-null it is the
string "streak-Day Streak!" for that streak value. -/
theorem milestone_iff :
    ∀ (s : PracticeSession) (docDates : List Int) (today : Int),
      ((log_practice s docDates today).1.milestone ≠ none ↔
        (0 < (log_practice s docDates today).1.streak ∧
          (log_practice s docDates today).1.streak % 7 = 0)) ∧
      (∀ m : String, (log_practice s docDates today).1.milestone = some m →
        m = toString (log_practice s docDates today).1.streak ++ "-Day Streak!") := by
  intro s docDates today
  constructor
  · show milestoneOf (streakOf docDates today) ≠ none ↔
      (0 < streakOf docDates today ∧ streakOf docDates today % 7 = 0)
    unfold milestoneOf
    split
    case isTrue h =>
      simp only [ne_eq, reduceCtorEq, not_false_eq_true, true_iff]
      omega
    case isFalse h =>
      simp only [ne_eq, not_true_eq_false, false_iff, not_not]
      omega
  · show ∀ m : String, milestoneOf (streakOf docDates today) = some m →
      m = toString (streakOf docDates today) ++ "-Day Streak!"
    unfold milestoneOf
    split
    case isTrue h => exact fun m hm => (Option.some.inj hm).symm
    case isFalse h => exact fun m hm => absurd hm (by simp)

/-- Witness for C5: a seven-day history ending today produces a non-null
milestone. -/
theorem milestone_iff_witness :
    (log_practice ⟨"a", 25, 70, 60, none, none⟩
        [0, -1, -2, -3, -4, -5, -6] 0).1.milestone ≠ none :=
  (milestone_iff ⟨"a", 25, 70, 60, none, none⟩ [0, -1, -2, -3, -4, -5, -6] 0).1.mpr
    (by decide)

/-- C6: for every validated practice session the computed XP lies in
[0, 50], and XP is monotonically non-decreasing in each of duration_min,
attempts and technique_score with the other two numeric inputs fixed. -/
theorem xp_bounds_and_monotone :
    (∀ (s : PracticeSession) (docDates : List Int) (today : Int), ValidSession s →
        0 ≤ (log_practice s docDates today).1.xp_earned ∧
          (log_practice s docDates today).1.xp_earned ≤ 50) ∧
    (∀ (s₁ s₂ : PracticeSession) (docDates : List Int) (today : Int),
        ValidSession s₁ → ValidSession s₂ →
        s₁.technique_score = s₂.technique_score → s₁.attempts = s₂.attempts →
        s₁.duration_min ≤ s₂.duration_min →
        (log_practice s₁ docDates today).1.xp_earned ≤
          (log_practice s₂ docDates today).1.xp_earned) ∧
    (∀ (s₁ s₂ : PracticeSession) (docDates : List Int) (today : Int),
        ValidSession s₁ → ValidSession s₂ →
        s₁.duration_min = s₂.duration_min → s₁.technique_score = s₂.technique_score →
        s₁.attempts ≤ s₂.attempts →
        (log_practice s₁ docDates today).1.xp_earned ≤
          (log_practice s₂ docDates today).1.xp_earned) ∧
    (∀ (s₁ s₂ : PracticeSession) (docDates : List Int) (today : Int),
        ValidSession s₁ → ValidSession s₂ →
        s₁.duration_min = s₂.duration_min → s₁.attempts = s₂.attempts →
        s₁.technique_score ≤ s₂.technique_score →
        (log_practice s₁ docDates today).1.xp_earned ≤
          (log_practice s₂ docDates today).1.xp_earned) := by
  refine ⟨?_, ?_, ?_, ?_⟩
  · intro s docDates today hv
    obtain ⟨h1, _, h3, _, h5, _, _⟩ := hv
    show 0 ≤ xpOf s ∧ xpOf s ≤ 50
    unfold xpOf
    rw [fdiv_five_eq, fdiv_ten_eq, fdiv_ten_eq]
    refine ⟨le_min (by norm_num) (by omega), min_le_left _ _⟩
  · intro s₁ s₂ _ _ _ _ ht ha hd
    exact xpOf_mono hd (le_of_eq ha) (le_of_eq ht)
  · intro s₁ s₂ _ _ _ _ hd ht ha
    exact xpOf_mono (le_of_eq hd) ha (le_of_eq ht)
  · intro s₁ s₂ _ _ _ _ hd ha ht
    exact xpOf_mono (le_of_eq hd) (le_of_eq ha) ht

/-- Witness for C6: bounds hold at the spec example session. -/
theorem xp_bounds_and_monotone_witness :
    0 ≤ (log_practice ⟨"a", 25, 70, 60, none, none⟩ [0] 0).1.xp_earned ∧
      (log_practice ⟨"a", 25, 70, 60, none, none⟩ [0] 0).1.xp_earned ≤ 50 :=
  xp_bounds_and_monotone.1 ⟨"a", 25, 70, 60, none, none⟩ [0] 0 (by decide)

/-- C8: the achievements persisted by the practice-log operation are exactly
one per awarded badge, in badge order, with the badge name as title, its
lower-cased hyphenated slug as key ("clean-pop" / "grinder"), the fixed star
icon and a description referencing today's date; they do not depend on the
retrieved history, so repeated qualifying sessions create duplicate records. -/
theorem achievements_per_badge :
    ∀ (s : PracticeSession) (docDates : List Int) (today : Int),
      ((log_practice s docDates today).2 =
          (log_practice s docDates today).1.badges_unlocked.map (fun b =>
            { user_id := s.user_id, key := slugOf b, title := b,
              description := "Unlocked by session on " ++ toString today,
              icon := "⭐" })) ∧
        slugOf "Clean Pop" = "clean-pop" ∧ slugOf "Grinder" = "grinder" ∧
        (∀ docDates2 : List Int,
          (log_practice s docDates today).2 = (log_practice s docDates2 today).2) :=
  fun _ _ _ => ⟨rfl, rfl, rfl, fun _ => rfl⟩

/-- C9: two practice-log computations given the same new session, the same
retrieved history dates and the same value of today return identical
feedback. -/
theorem log_practice_deterministic :
    ∀ (s₁ s₂ : PracticeSession) (d₁ d₂ : List Int) (t₁ t₂ : Int),
      s₁ = s₂ → d₁ = d₂ → t₁ = t₂ →
      (log_practice s₁ d₁ t₁).1 = (log_practice s₂ d₂ t₂).1 := by
  rintro s _ d _ t _ rfl rfl rfl
  rfl

/-- Witness for C9: determinism instantiated at the spec example. -/
theorem log_practice_deterministic_witness :
    (log_practice ⟨"a", 25, 70, 60, none, none⟩ [0] 0).1 =
      (log_practice ⟨"a", 25, 70, 60, none, none⟩ [0] 0).1 :=
  log_practice_deterministic _ _ _ _ _ _ rfl rfl rfl

/-- C10: the badge list returned by the practice-log operation has length at
most 2, has no duplicates, contains only "Clean Pop" and "Grinder", and when
both badges are awarded "Clean Pop" precedes "Grinder". -/
theorem badges_list_invariants :
    ∀ (s : PracticeSession) (docDates : List Int) (today : Int),
      ((log_practice s docDates today).1.badges_unlocked.length ≤ 2) ∧
        (log_practice s docDates today).1.badges_unlocked.Nodup ∧
        (∀ b ∈ (log_practice s docDates today).1.badges_unlocked,
          b = "Clean Pop" ∨ b = "Grinder") ∧
        ("Clean Pop" ∈ (log_practice s docDates today).1.badges_unlocked →
          "Grinder" ∈ (log_practice s docDates today).1.badges_unlocked →
          (log_practice s docDates today).1.badges_unlocked =
            ["Clean Pop", "Grinder"]) := by
  intro s docDates today
  show ((badgesOf s).length ≤ 2) ∧ (badgesOf s).Nodup ∧
    (∀ b ∈ badgesOf s, b = "Clean Pop" ∨ b = "Grinder") ∧
    ("Clean Pop" ∈ badgesOf s → "Grinder" ∈ badgesOf s →
      badgesOf s = ["Clean Pop", "Grinder"])
  unfold badgesOf
  by_cases h1 : 60 ≤ s.technique_score <;> by_cases h2 : 50 ≤ s.attempts <;>
    simp [h1, h2]

/-- Witness for C10: a session unlocking both badges returns them in order. -/
theorem badges_list_invariants_witness :
    (log_practice ⟨"a", 25, 70, 60, none, none⟩ [0] 0).1.badges_unlocked =
      ["Clean Pop", "Grinder"] :=
  (badges_list_invariants ⟨"a", 25, 70, 60, none, none⟩ [0] 0).2.2.2
    (by decide) (by decide)

/-! ### Lemmas about the leaderboard aggregation -/

theorem valOf_updateScore_self (acc : List (String × Int)) (uid : String) (p : Int) :
    valOf (updateScore acc uid p) uid = valOf acc uid + p := by
  unfold updateScore valOf
  split
  case isTrue h =>
    rw [List.find?_map]
    have hpred : ((fun e : String × Int => e.1 == uid) ∘
        fun e : String × Int => if e.1 == uid then (e.1, e.2 + p) else e) =
        fun e : String × Int => e.1 == uid := by
      funext e
      simp only [Function.comp_apply]
      split <;> rfl
    rw [hpred]
    cases hfind : acc.find? fun e => e.1 == uid with
    | none =>
      exfalso
      obtain ⟨e, he, hpe⟩ := List.any_eq_true.mp h
      exact absurd hpe (by simpa using List.find?_eq_none.mp hfind e he)
    | some x =>
      have hxk := List.find?_some hfind
      have hxe : x.1 = uid := by simpa using hxk
      simp [hxe]
  case isFalse h =>
    have hnone : (acc.find? fun e => e.1 == uid) = none :=
      List.find?_eq_none.mpr fun x hx hbeq => h (List.any_eq_true.mpr ⟨x, hx, hbeq⟩)
    rw [List.find?_append, hnone]
    simp

theorem valOf_updateScore_ne (acc : List (String × Int)) (uid k : String) (p : Int)
    (hk : k ≠ uid) : valOf (updateScore acc uid p) k = valOf acc k := by
  unfold updateScore valOf
  split
  case isTrue h =>
    rw [List.find?_map]
    have hpred : ((fun e : String × Int => e.1 == k) ∘
        fun e : String × Int => if e.1 == uid then (e.1, e.2 + p) else e) =
        fun e : String × Int => e.1 == k := by
      funext e
      simp only [Function.comp_apply]
      split
      case isTrue heq => simp_all
      case isFalse => rfl
    rw [hpred]
    cases hfind : acc.find? fun e => e.1 == k with
    | none => simp
    | some x =>
      have hxk := List.find?_some hfind
      have hx : x.1 = k := by simpa using hxk
      simp [hx, hk]
  case isFalse h =>
    have h2 : (([(uid, p)] : List (String × Int)).find? fun e => e.1 == k) = none := by
      simp
      exact fun heq => hk heq.symm
    rw [List.find?_append, h2]
    simp

theorem valOf_foldl_updateScore (l : List SessionDoc) :
    ∀ (acc : List (String × Int)) (uid : String),
      valOf (l.foldl (fun acc s => updateScore acc s.user_id (sessionPoints s)) acc) uid
        = valOf acc uid + userPoints l uid := by
  induction l with
  | nil => intro acc uid; simp [userPoints]
  | cons s t ih =>
    intro acc uid
    rw [List.foldl_cons, ih]
    by_cases hu : s.user_id = uid
    · have hb : (s.user_id == uid) = true := by simp [hu]
      rw [hu, valOf_updateScore_self]
      simp [userPoints, List.filter_cons, hb]
      omega
    · have hb : (s.user_id == uid) = false := by simp [hu]
      rw [valOf_updateScore_ne _ _ _ _ fun e => hu e.symm]
      simp [userPoints, List.filter_cons, hb]

theorem keys_nodup_updateScore (acc : List (String × Int)) (uid : String) (p : Int)
    (h : (acc.map Prod.fst).Nodup) : ((updateScore acc uid p).map Prod.fst).Nodup := by
  unfold updateScore
  split
  case isTrue _ =>
    have heq : (acc.map fun e : String × Int =>
        if e.1 == uid then (e.1, e.2 + p) else e).map Prod.fst = acc.map Prod.fst := by
      rw [List.map_map]
      exact List.map_congr_left fun e _ => by
        simp only [Function.comp_apply]
        split <;> rfl
    rwa [heq]
  case isFalse hany =>
    rw [List.map_append]
    have huid : uid ∉ acc.map Prod.fst := by
      intro hmem
      obtain ⟨e, he, heq⟩ := List.mem_map.mp hmem
      exact hany (List.any_eq_true.mpr ⟨e, he, by simp [heq]⟩)
    simp [List.nodup_append, h, huid]

theorem keys_nodup_foldl_updateScore (l : List SessionDoc) :
    ∀ acc : List (String × Int), (acc.map Prod.fst).Nodup →
      ((l.foldl (fun acc s => updateScore acc s.user_id (sessionPoints s)) acc).map
        Prod.fst).Nodup := by
  induction l with
  | nil => intro acc h; simpa using h
  | cons s t ih =>
    intro acc h
    rw [List.foldl_cons]
    exact ih _ (keys_nodup_updateScore _ _ _ h)

theorem valOf_of_mem (uid : String) (p : Int) :
    ∀ acc : List (String × Int), (acc.map Prod.fst).Nodup → (uid, p) ∈ acc →
      valOf acc uid = p := by
  intro acc
  induction acc with
  | nil => intro _ hm; cases hm
  | cons e tl ih =>
    intro hnd hm
    rw [List.map_cons, List.nodup_cons] at hnd
    rcases List.mem_cons.mp hm with heq | hm2
    · rw [← heq]
      simp [valOf, List.find?_cons]
    · have hkey : (e.1 == uid) = false := by
        have : uid ∈ tl.map Prod.fst := List.mem_map.mpr ⟨(uid, p), hm2, rfl⟩
        have hne : e.1 ≠ uid := fun h => hnd.1 (h ▸ this)
        simp [hne]
      unfold valOf
      rw [List.find?_cons, hkey]
      exact ih hnd.2 hm2

theorem scoreFold_points (sessions : List SessionDoc) (uid : String) (p : Int)
    (hm : (uid, p) ∈ scoreFold sessions) : p = userPoints sessions uid := by
  have hnd : ((scoreFold sessions).map Prod.fst).Nodup :=
    keys_nodup_foldl_updateScore sessions [] (by simp)
  have hv := valOf_of_mem uid p (scoreFold sessions) hnd hm
  rw [scoreFold, valOf_foldl_updateScore] at hv
  simpa [valOf] using hv.symm

theorem mem_insertDesc (a x : String × Int) (l : List (String × Int)) :
    x ∈ insertDesc a l ↔ x = a ∨ x ∈ l := by
  induction l with
  | nil => simp [insertDesc]
  | cons b t ih =>
    unfold insertDesc
    split
    · simp
    · simp only [List.mem_cons, ih]
      tauto

theorem pairwise_insertDesc (a : String × Int) (l : List (String × Int))
    (h : l.Pairwise fun x y => y.2 ≤ x.2) :
    (insertDesc a l).Pairwise fun x y => y.2 ≤ x.2 := by
  induction l with
  | nil => simp [insertDesc]
  | cons b t ih =>
    rcases List.pairwise_cons.mp h with ⟨hb, ht⟩
    unfold insertDesc
    split
    case isTrue hlt =>
      refine List.pairwise_cons.mpr ⟨?_, h⟩
      intro y hy
      rcases List.mem_cons.mp hy with rfl | hyt
      · omega
      · have := hb y hyt; omega
    case isFalse hge =>
      refine List.pairwise_cons.mpr ⟨?_, ih ht⟩
      intro y hy
      rcases (mem_insertDesc a y t).mp hy with rfl | hyt
      · omega
      · exact hb y hyt

theorem mem_foldl_insertDesc (x : String × Int) (l : List (String × Int)) :
    ∀ acc : List (String × Int),
      (x ∈ l.foldl (fun acc a => insertDesc a acc) acc ↔ x ∈ acc ∨ x ∈ l) := by
  induction l with
  | nil => intro acc; simp
  | cons a t ih =>
    intro acc
    rw [List.foldl_cons, ih (insertDesc a acc), mem_insertDesc]
    simp only [List.mem_cons]
    tauto

theorem mem_sortedDesc (x : String × Int) (l : List (String × Int)) :
    x ∈ sortedDesc l ↔ x ∈ l := by
  rw [sortedDesc, mem_foldl_insertDesc]
  simp

theorem pairwise_sortedDesc (l : List (String × Int)) :
    (sortedDesc l).Pairwise fun x y => y.2 ≤ x.2 := by
  rw [sortedDesc]
  have : ∀ acc : List (String × Int), (acc.Pairwise fun x y => y.2 ≤ x.2) →
      ((l.foldl (fun acc a => insertDesc a acc) acc).Pairwise fun x y => y.2 ≤ x.2) := by
    induction l with
    | nil => intro acc h; simpa using h
    | cons a t ih =>
      intro acc h
      rw [List.foldl_cons]
      exact ih _ (pairwise_insertDesc a acc h)
  exact this [] (by simp)

theorem mem_addRanks (e : LBEntry) :
    ∀ (i : Nat) (l : List (String × Int)), e ∈ addRanks i l →
      (e.user_id, e.points) ∈ l := by
  intro i l
  induction l generalizing i with
  | nil => intro h; cases h
  | cons x t ih =>
    intro h
    rcases List.mem_cons.mp h with rfl | ht
    · simp
    · exact List.mem_cons.mpr (Or.inr (ih _ ht))

theorem length_addRanks : ∀ (i : Nat) (l : List (String × Int)),
    (addRanks i l).length = l.length := by
  intro i l
  induction l generalizing i with
  | nil => rfl
  | cons x t ih => simp [addRanks, ih]

theorem map_rank_addRanks : ∀ (i : Nat) (l : List (String × Int)),
    (addRanks i l).map LBEntry.rank = List.range' (i + 1) l.length := by
  intro i l
  induction l generalizing i with
  | nil => rfl
  | cons x t ih =>
    rw [List.length_cons, List.range'_succ]
    simp [addRanks, ih]

theorem pairwise_addRanks (R : Int → Int → Prop) :
    ∀ (i : Nat) (l : List (String × Int)), (l.Pairwise fun x y => R x.2 y.2) →
      (addRanks i l).Pairwise fun x y => R x.points y.points := by
  intro i l
  induction l generalizing i with
  | nil => intro _; exact List.Pairwise.nil
  | cons x t ih =>
    intro h
    rcases List.pairwise_cons.mp h with ⟨hx, ht⟩
    refine List.pairwise_cons.mpr ⟨?_, ih _ ht⟩
    intro y hy
    have := hx (y.user_id, y.points) (mem_addRanks y _ t hy)
    exact this

/-- C7: the leaderboard operation returns, for each listed entry, points
equal to the sum over that user's sessions of
`technique_score + attempts // 10`; the entries are sorted descending by
points, truncated to the limit, and carry 1-based consecutive ranks; in
particular the sessions (u1: score 80, attempts 20) and
(u2: score 50, attempts 100) yield [u1 with 82 points rank 1,
u2 with 60 points rank 2]. -/
theorem leaderboard_spec :
    (∀ (sessions : List SessionDoc) (limit : Nat) (e : LBEntry),
        e ∈ leaderboard sessions limit → e.points = userPoints sessions e.user_id) ∧
    (∀ (sessions : List SessionDoc) (limit : Nat),
        (leaderboard sessions limit).Pairwise fun a b => b.points ≤ a.points) ∧
    (∀ (sessions : List SessionDoc) (limit : Nat),
        (leaderboard sessions limit).length ≤ limit) ∧
    (∀ (sessions : List SessionDoc) (limit : Nat),
        (leaderboard sessions limit).map LBEntry.rank =
          List.range' 1 (leaderboard sessions limit).length) ∧
    leaderboard [⟨"u1", 80, 20⟩, ⟨"u2", 50, 100⟩] 20 =
      [⟨"u1", 82, 1⟩, ⟨"u2", 60, 2⟩] := by
  refine ⟨?_, ?_, ?_, ?_, rfl⟩
  · intro sessions limit e he
    have h1 := mem_addRanks e 0 _ he
    have h2 : (e.user_id, e.points) ∈ sortedDesc (scoreFold sessions) :=
      List.take_subset _ _ h1
    exact scoreFold_points sessions _ _ ((mem_sortedDesc _ _).mp h2)
  · intro sessions limit
    exact pairwise_addRanks (fun a b => b ≤ a) 0 _
      (List.Pairwise.sublist (List.take_sublist _ _) (pairwise_sortedDesc _))
  · intro sessions limit
    show (addRanks 0 _).length ≤ limit
    rw [length_addRanks, List.length_take]
    exact Nat.min_le_left _ _
  · intro sessions limit
    show (addRanks 0 _).map LBEntry.rank = List.range' 1 (addRanks 0 _).length
    rw [map_rank_addRanks, length_addRanks]

/-- Witness for C7: the first entry of the example leaderboard indeed
carries the summed points of user u1, discharging the membership
hypothesis at a concrete input. -/
theorem leaderboard_spec_witness :
    (⟨"u1", 82, 1⟩ : LBEntry).points =
      userPoints [⟨"u1", 80, 20⟩, ⟨"u2", 50, 100⟩] "u1" :=
  leaderboard_spec.1 [⟨"u1", 80, 20⟩, ⟨"u2", 50, 100⟩] 20 ⟨"u1", 82, 1⟩ (by decide)

end Shove
